import Mathlib

/-!
Shallow embedding of the market-index-comparison pipeline (src/app.py).

Prices are modelled as rationals (exact arithmetic in place of float64);
a missing price (NaN) is modelled as `none` in an `Option ℚ`.
Pandas operations are translated one-for-one:
  * `df.ffill()`            → `ffill`
  * `.dropna()`             → `dropna`
  * `series.pct_change()`   → `pct_change` (first entry NaN = `none`)
  * `.fillna(0)`            → `fillna0`
  * `.cumprod()`            → `cumprod`
  * `.rolling(20).std()`    → `rollingStd` (NaN before a full window; ddof = 1)
  * `.mean()` / `.std()` on a too-short series → `none` (pandas NaN)
An operation that raises in Python (`iloc[0]` on an empty series) is
modelled as an `Option` result, `none` standing for the exception.
-/

namespace MarketApp

/-- `df.ffill()` with an explicit carry: each `none` is replaced by the most
recent preceding non-null value; entries before the first non-null stay `none`. -/
def ffillGo : Option ℚ → List (Option ℚ) → List (Option ℚ)
  | _, [] => []
  | _, some v :: xs => some v :: ffillGo (some v) xs
  | carry, none :: xs => carry :: ffillGo carry xs

/-- `df.ffill()` (no value precedes the first entry). -/
def ffill (xs : List (Option ℚ)) : List (Option ℚ) :=
  ffillGo none xs

/-- `.dropna()`: drop every remaining null entry. -/
def dropna (xs : List (Option ℚ)) : List ℚ :=
  xs.filterMap id

/-- The cleaning step of `fetch_data` (src/app.py line 52): `df.ffill().dropna()`. -/
def cleanSeries (xs : List (Option ℚ)) : List ℚ :=
  dropna (ffill xs)

/-- The most recent non-null value of a list of observations, if any. -/
def lastValue (xs : List (Option ℚ)) : Option ℚ :=
  (xs.filterMap id).getLast?

/-- The Series Cleaner as the spec words it: entry `i` becomes the most recent
non-null price at or before position `i` (forward-fill), and entries with no
prior value to fill from are dropped. -/
def cleanerSpec (xs : List (Option ℚ)) : List ℚ :=
  (List.range xs.length).filterMap (fun i => lastValue (xs.take (i + 1)))

/-- `normalize_series` (src/app.py lines 54-55): `(series / series.iloc[0]) * 100`.
`iloc[0]` raises on an empty series, modelled by `none`. -/
def normalize_series (s : List ℚ) : Option (List ℚ) :=
  match s with
  | [] => none
  | p0 :: _ => some (s.map (fun p => p / p0 * 100))

/-- Tail of `series.pct_change()`: entry for price `p` with predecessor `prev`
is `p / prev - 1`. -/
def pctChangeGo : ℚ → List ℚ → List (Option ℚ)
  | _, [] => []
  | prev, p :: ps => some (p / prev - 1) :: pctChangeGo p ps

/-- `series.pct_change()`: the first entry has no predecessor and is NaN. -/
def pct_change : List ℚ → List (Option ℚ)
  | [] => []
  | p :: ps => none :: pctChangeGo p ps

/-- `.fillna(0)`: replace each NaN by 0. -/
def fillna0 (xs : List (Option ℚ)) : List ℚ :=
  xs.map (fun x => x.getD 0)

/-- `returns = series.pct_change().fillna(0)` (src/app.py lines 96 and 119). -/
def returnsSeries (s : List ℚ) : List ℚ :=
  fillna0 (pct_change s)

/-- `.cumprod()` with an accumulator: running product, computed iteratively. -/
def cumprodGo : ℚ → List ℚ → List ℚ
  | _, [] => []
  | acc, x :: xs => (acc * x) :: cumprodGo (acc * x) xs

/-- `.cumprod()`. -/
def cumprod (xs : List ℚ) : List ℚ :=
  cumprodGo 1 xs

/-- `cum_returns = (1 + returns).cumprod() - 1` (src/app.py line 97). -/
def cum_returns (s : List ℚ) : List ℚ :=
  (cumprod ((returnsSeries s).map (fun r => 1 + r))).map (fun x => x - 1)

/-- `.mean()` of a non-empty series. -/
def mean (xs : List ℚ) : ℚ :=
  xs.sum / (xs.length : ℚ)

/-- Unbiased sample variance (the square of pandas `.std()`, ddof = 1). -/
def sampleVar (xs : List ℚ) : ℚ :=
  (xs.map (fun x => (x - mean xs) ^ 2)).sum / ((xs.length : ℚ) - 1)

/-- `.rolling(window=w).std()`: NaN (`none`) until a full window of `w`
observations is available, then the unbiased sample standard deviation of the
trailing `w` entries. -/
noncomputable def rollingStd (w : ℕ) (xs : List ℚ) : List (Option ℝ) :=
  (List.range xs.length).map (fun i =>
    if i + 1 < w then none
    else some (Real.sqrt ((sampleVar ((xs.take (i + 1)).drop (i + 1 - w)) : ℚ) : ℝ)))

/-- `rolling_vol = daily_returns.rolling(window=20).std() * 100`
(src/app.py lines 119-120). -/
noncomputable def rolling_vol (s : List ℚ) : List (Option ℝ) :=
  (rollingStd 20 (returnsSeries s)).map (Option.map (fun v => v * 100))

/-- `series.pct_change().dropna()` (src/app.py line 145): the per-period
returns with the index-0 NaN dropped. -/
def returnsDropna (s : List ℚ) : List ℚ :=
  (pct_change s).filterMap id

/-- pandas `.mean()`: NaN (`none`) on an empty series. -/
def meanOpt (xs : List ℚ) : Option ℚ :=
  if xs.length = 0 then none else some (mean xs)

/-- pandas `.std()` (ddof = 1): NaN (`none`) on fewer than two observations. -/
noncomputable def stdOpt (xs : List ℚ) : Option ℝ :=
  if xs.length < 2 then none
  else some (Real.sqrt ((sampleVar xs : ℚ) : ℝ))

/-- One row of the performance summary table (src/app.py lines 148-155).
`none` in the optional fields models a NaN printed into the table. -/
structure SummaryRow where
  startPrice : ℚ
  endPrice : ℚ
  totalReturnPct : ℚ
  avgDailyReturnPct : Option ℚ
  volatilityPct : Option ℝ

/-- The summary-table loop body (src/app.py lines 141-155): `iloc[0]` and
`iloc[-1]` raise on an empty series (`none`); otherwise the row is built from
total return and the mean/std of `pct_change().dropna()`. -/
noncomputable def summaryRow (s : List ℚ) : Option SummaryRow :=
  match s with
  | [] => none
  | p0 :: rest =>
    some { startPrice := p0
           endPrice := (p0 :: rest).getLastD p0
           totalReturnPct := ((p0 :: rest).getLastD p0 / p0 - 1) * 100
           avgDailyReturnPct := (meanOpt (returnsDropna (p0 :: rest))).map (fun m => m * 100)
           volatilityPct := (stdOpt (returnsDropna (p0 :: rest))).map (fun v => v * 100) }

/-- The raw result of `yf.download` for one ticker, after the column probing of
`fetch_data` (src/app.py lines 31-50): the frame is empty, or no usable price
column exists, or a list of (possibly null) closing prices was extracted. -/
inductive RawFetch where
  | emptyDF : RawFetch
  | badShape : RawFetch
  | rows : List (Option ℚ) → RawFetch
  deriving DecidableEq

/-- `fetch_data` (src/app.py lines 29-52): returns the user-visible messages it
emits together with the cleaned series. An empty frame warns and yields an
empty series; a shape problem errors and yields an empty series; otherwise the
extracted column is forward-filled and nulls dropped, with no message. -/
def fetch_data (ticker : String) (raw : RawFetch) : List String × List ℚ :=
  match raw with
  | .emptyDF => (["No data returned for " ++ ticker ++ "."], [])
  | .badShape => (["No valid price column for " ++ ticker ++ "."], [])
  | .rows cs => ([], cleanSeries cs)

/-- All user-visible warnings/errors emitted while fetching the selected
indices (the main loop at src/app.py lines 63-69 fetches each in turn). -/
def warningsOf (inputs : List (String × RawFetch)) : List String :=
  (inputs.map (fun p => (fetch_data p.1 p.2).1)).flatten

/-- `price_data` (src/app.py lines 61-69): each selected index whose fetched,
cleaned series is non-empty, paired with that series; empty series are skipped
by `continue`. -/
def priceData (inputs : List (String × RawFetch)) : List (String × List ℚ) :=
  inputs.filterMap (fun p =>
    if (fetch_data p.1 p.2).2 = [] then none
    else some (p.1, (fetch_data p.1 p.2).2))

/-- The index labels appearing as traces on every chart: chart 1 adds a trace
exactly for the non-skipped indices, and charts 2 and 3 iterate `price_data`
(src/app.py lines 70, 95, 118). -/
def chartNames (inputs : List (String × RawFetch)) : List String :=
  (priceData inputs).map Prod.fst

/-- The summary table (src/app.py lines 140-156): one row per `price_data`
entry. -/
noncomputable def summaryTable (inputs : List (String × RawFetch)) :
    List (String × Option SummaryRow) :=
  (priceData inputs).map (fun p => (p.1, summaryRow p.2))

/-- The raw-data export (src/app.py line 165): a dict comprehension calling
`normalize_series(fetch_data(...))` for every selected index, with no empty
check; an exception in any call aborts the whole comprehension (`none`). -/
def exportRaw (inputs : List (String × RawFetch)) : Option (List (String × List ℚ)) :=
  inputs.foldr
    (fun p acc =>
      match normalize_series (fetch_data p.1 p.2).2, acc with
      | some ns, some rest => some ((p.1, ns) :: rest)
      | _, _ => none)
    (some [])

/-! ### Helper lemmas: the cleaner -/

theorem filterMap_id_cons (o : Option ℚ) (l : List (Option ℚ)) :
    (o :: l).filterMap id = o.toList ++ l.filterMap id := by
  cases o <;> simp

theorem getLast?_toList (o : Option ℚ) : o.toList.getLast? = o := by
  cases o <;> rfl

theorem filterMap_toList_cons {α β : Type} (f : α → Option β) (a : α) (l : List α) :
    (a :: l).filterMap f = (f a).toList ++ l.filterMap f := by
  rw [List.filterMap_cons]
  cases h : f a <;> rfl

/-- Appending in front of a non-empty list does not change its last element. -/
theorem getLast?_append_cons (l : List ℚ) (v : ℚ) (A : List ℚ) :
    (l ++ (v :: A)).getLast? = (v :: A).getLast? := by
  rw [List.getLast?_append, List.getLast?_eq_getLast (v :: A) (by simp)]
  rfl

/-- `ffill` followed by `dropna` keeps, for each position `i`, the most recent
non-null value at or before `i` (with `carry` standing for an older value). -/
theorem dropna_ffillGo (carry : Option ℚ) (xs : List (Option ℚ)) :
    dropna (ffillGo carry xs) =
      (List.range xs.length).filterMap
        (fun i => (carry.toList ++ (xs.take (i + 1)).filterMap id).getLast?) := by
  induction xs generalizing carry with
  | nil => rfl
  | cons x tl ih =>
    rw [List.length_cons, List.range_succ_eq_map, filterMap_toList_cons, List.filterMap_map]
    cases x with
    | some v =>
      have hl : dropna (ffillGo carry (some v :: tl)) =
          v :: dropna (ffillGo (some v) tl) := by
        simp [dropna, ffillGo]
      have h0 : (carry.toList ++ ((some v :: tl).take (0 + 1)).filterMap id).getLast?
          = some v := by
        simp [List.take_succ_cons]
      rw [hl, ih (some v), h0]
      show v :: _ = v :: _
      apply congrArg
      congr 1
      funext i
      show ((some v).toList ++ (tl.take (i + 1)).filterMap id).getLast?
        = (carry.toList ++ ((some v :: tl).take (i + 1 + 1)).filterMap id).getLast?
      rw [List.take_succ_cons, filterMap_id_cons]
      show (v :: (tl.take (i + 1)).filterMap id).getLast?
        = (carry.toList ++ (v :: (tl.take (i + 1)).filterMap id)).getLast?
      exact (getLast?_append_cons _ v _).symm
    | none =>
      have hl : dropna (ffillGo carry (none :: tl)) =
          carry.toList ++ dropna (ffillGo carry tl) := by
        cases carry <;> simp [dropna, ffillGo]
      have h0 : (carry.toList ++ ((none :: tl).take (0 + 1)).filterMap id).getLast?
          = carry := by
        simp [List.take_succ_cons, getLast?_toList]
      rw [hl, ih carry, h0]
      have hfun : (fun i =>
            (carry.toList ++ ((tl.take (i + 1)).filterMap id : List ℚ)).getLast?)
          = ((fun i =>
            (carry.toList ++ (((none :: tl).take (i + 1)).filterMap id : List ℚ)).getLast?)
              ∘ Nat.succ) := by
        funext i
        show (carry.toList ++ (tl.take (i + 1)).filterMap id).getLast?
          = (carry.toList ++ ((none :: tl).take (i + 1 + 1)).filterMap id).getLast?
        rw [List.take_succ_cons, filterMap_id_cons]
        rfl
      rw [hfun]

/-- The implemented cleaner coincides with the spec-worded cleaner. -/
theorem cleanSeries_eq_cleanerSpec (xs : List (Option ℚ)) :
    cleanSeries xs = cleanerSpec xs := by
  have h := dropna_ffillGo none xs
  simpa [cleanSeries, ffill, cleanerSpec, lastValue] using h

/-! ### Helper lemmas: returns and cumulative products -/

theorem length_pctChangeGo (prev : ℚ) (ps : List ℚ) :
    (pctChangeGo prev ps).length = ps.length := by
  induction ps generalizing prev with
  | nil => rfl
  | cons p tl ih => simp [pctChangeGo, ih]

theorem pctChangeGo_getElem (prev : ℚ) (ps : List ℚ) (i : ℕ) (h : i < ps.length) :
    (pctChangeGo prev ps)[i]? =
      some (some ((prev :: ps).getD (i + 1) 0 / (prev :: ps).getD i 0 - 1)) := by
  induction ps generalizing prev i with
  | nil => simp at h
  | cons p tl ih =>
    cases i with
    | zero => simp [pctChangeGo]
    | succ j =>
      have hj : j < tl.length := by simpa using h
      rw [show pctChangeGo prev (p :: tl)
          = some (p / prev - 1) :: pctChangeGo p tl from rfl]
      rw [List.getElem?_cons_succ, ih p j hj]
      simp [List.getD_cons_succ]

theorem pctChangeGo_eq (prev : ℚ) (ps : List ℚ) :
    pctChangeGo prev ps =
      (List.range ps.length).map
        (fun i => some ((prev :: ps).getD (i + 1) 0 / (prev :: ps).getD i 0 - 1)) := by
  apply List.ext_getElem?
  intro i
  by_cases hi : i < ps.length
  · rw [pctChangeGo_getElem prev ps i hi, List.getElem?_map, List.getElem?_range hi]
    rfl
  · rw [List.getElem?_eq_none (by simpa [length_pctChangeGo] using Nat.le_of_not_lt hi),
      List.getElem?_eq_none (by simpa using Nat.le_of_not_lt hi)]

theorem length_returnsSeries (s : List ℚ) : (returnsSeries s).length = s.length := by
  cases s with
  | nil => rfl
  | cons p ps => simp [returnsSeries, fillna0, pct_change, length_pctChangeGo]

theorem returnsSeries_zero (s : List ℚ) (h : s ≠ []) :
    (returnsSeries s)[0]? = some 0 := by
  cases s with
  | nil => exact absurd rfl h
  | cons p ps => simp [returnsSeries, pct_change, fillna0]

theorem returnsSeries_succ (s : List ℚ) (i : ℕ) (h1 : 1 ≤ i) (h2 : i < s.length) :
    (returnsSeries s)[i]? = some (s.getD i 0 / s.getD (i - 1) 0 - 1) := by
  cases s with
  | nil => simp at h2
  | cons p ps =>
    obtain ⟨j, rfl⟩ : ∃ j, i = j + 1 := ⟨i - 1, (Nat.succ_pred_eq_of_pos h1).symm⟩
    have hj : j < ps.length := by simpa using h2
    show ((none :: pctChangeGo p ps).map (fun x => x.getD 0))[j + 1]? = _
    rw [List.getElem?_map, List.getElem?_cons_succ, pctChangeGo_eq, List.getElem?_map,
      List.getElem?_range hj]
    simp

theorem cumprodGo_getElem (acc : ℚ) (xs : List ℚ) (i : ℕ) (h : i < xs.length) :
    (cumprodGo acc xs)[i]? = some (acc * (xs.take (i + 1)).prod) := by
  induction xs generalizing acc i with
  | nil => simp at h
  | cons x tl ih =>
    cases i with
    | zero => simp [cumprodGo, List.take_succ_cons]
    | succ j =>
      have hj : j < tl.length := by simpa using h
      rw [show cumprodGo acc (x :: tl) = (acc * x) :: cumprodGo (acc * x) tl from rfl]
      rw [List.getElem?_cons_succ, ih (acc * x) j hj, List.take_succ_cons, List.prod_cons,
        mul_assoc]

theorem take_eq_map_range_getD (l : List ℚ) (n : ℕ) (h : n ≤ l.length) :
    l.take n = (List.range n).map (fun j => l.getD j 0) := by
  apply List.ext_getElem?
  intro j
  rw [List.getElem?_take, List.getElem?_map]
  by_cases hj : j < n
  · rw [if_pos hj, List.getElem?_range hj]
    have hjl : j < l.length := lt_of_lt_of_le hj h
    simp [List.getD_eq_getElem?_getD, List.getElem?_eq_getElem hjl]
  · rw [if_neg hj, List.getElem?_eq_none (by simpa using Nat.le_of_not_lt hj)]
    rfl

theorem drop_take_eq_map_range (xs : List ℚ) (a b : ℕ) (h : a + b ≤ xs.length) :
    (xs.take (a + b)).drop a = (List.range b).map (fun j => xs.getD (a + j) 0) := by
  apply List.ext_getElem?
  intro j
  rw [List.getElem?_drop, List.getElem?_take, List.getElem?_map]
  by_cases hj : j < b
  · rw [if_pos (by omega), List.getElem?_range hj]
    have hjl : a + j < xs.length := by omega
    simp [List.getD_eq_getElem?_getD, List.getElem?_eq_getElem hjl]
  · rw [if_neg (by omega), List.getElem?_eq_none (by simpa using Nat.le_of_not_lt hj)]
    rfl

theorem sampleVar_nonneg (xs : List ℚ) : 0 ≤ sampleVar xs := by
  cases xs with
  | nil => simp [sampleVar]
  | cons x tl =>
    apply div_nonneg
    · apply List.sum_nonneg
      intro y hy
      obtain ⟨z, _, rfl⟩ := List.mem_map.mp hy
      positivity
    · have h1 : (1 : ℚ) ≤ (((x :: tl).length : ℕ) : ℚ) := by
        have : 1 ≤ (x :: tl).length := Nat.succ_le_of_lt (List.length_pos.mpr (by simp))
        exact_mod_cast this
      linarith

theorem returnsDropna_eq (p : ℚ) (ps : List ℚ) :
    returnsDropna (p :: ps) =
      (List.range ps.length).map
        (fun i => (p :: ps).getD (i + 1) 0 / (p :: ps).getD i 0 - 1) := by
  show ((none :: pctChangeGo p ps).filterMap id : List ℚ) = _
  rw [List.filterMap_cons]
  show (pctChangeGo p ps).filterMap id = _
  rw [pctChangeGo_eq, List.filterMap_map]
  show List.filterMap (some ∘ fun i => ((p :: ps).getD (i + 1) 0 / (p :: ps).getD i 0 - 1))
    (List.range ps.length) = _
  rw [List.filterMap_eq_map]

/-! ### Claim theorems -/

/-- C1: For every non-empty clean price series whose first price is non-zero,
`normalize_series` returns a series of the same length with
value[i] = price[i] / price[0] * 100 for every i and value[0] = 100 exactly;
it is a pure function of its input. -/
theorem C1_normalizer (s : List ℚ) (p0 : ℚ) (rest : List ℚ)
    (hs : s = p0 :: rest) (h0 : p0 ≠ 0) :
    ∃ l, normalize_series s = some l ∧ l.length = s.length ∧ l[0]? = some 100 ∧
      ∀ i, i < s.length → l[i]? = some (s.getD i 0 / p0 * 100) := by
  subst hs
  refine ⟨(p0 :: rest).map (fun p => p / p0 * 100), rfl, by simp, ?_, ?_⟩
  · rw [List.getElem?_map, List.getElem?_cons_zero]
    simp [div_self h0]
  · intro i hi
    rw [List.getElem?_map, List.getElem?_eq_getElem hi]
    simp [List.getD_eq_getElem?_getD, List.getElem?_eq_getElem hi]

/-- Witness for C1 at the concrete series [2, 4]. -/
theorem C1_normalizer_witness :
    ([2, 4] : List ℚ) = 2 :: [4] ∧ (2 : ℚ) ≠ 0 ∧
      (∃ l, normalize_series [2, 4] = some l ∧ l.length = ([2, 4] : List ℚ).length ∧
        l[0]? = some 100 ∧
        ∀ i, i < ([2, 4] : List ℚ).length →
          l[i]? = some (([2, 4] : List ℚ).getD i 0 / 2 * 100)) :=
  ⟨rfl, by norm_num, C1_normalizer [2, 4] 2 [4] rfl (by norm_num)⟩

/-- C2: For every clean price series with N observations,
`pct_change().fillna(0)` has exactly N elements, return[0] = 0, and
return[i] = price[i]/price[i-1] - 1 for every i ≥ 1. -/
theorem C2_return_series (s : List ℚ) :
    (returnsSeries s).length = s.length ∧
      (s ≠ [] → (returnsSeries s)[0]? = some 0) ∧
      ∀ i, 1 ≤ i → i < s.length →
        (returnsSeries s)[i]? = some (s.getD i 0 / s.getD (i - 1) 0 - 1) :=
  ⟨length_returnsSeries s, returnsSeries_zero s, returnsSeries_succ s⟩

/-- Witness for C2 at the concrete series [100, 110]. -/
theorem C2_return_series_witness :
    ([100, 110] : List ℚ) ≠ [] ∧ (1 : ℕ) ≤ 1 ∧ 1 < ([100, 110] : List ℚ).length ∧
      (returnsSeries [100, 110])[0]? = some 0 ∧
      (returnsSeries [100, 110])[1]? =
        some (([100, 110] : List ℚ).getD 1 0 / ([100, 110] : List ℚ).getD (1 - 1) 0 - 1) :=
  ⟨by decide, le_refl 1, by decide,
    (C2_return_series [100, 110]).2.1 (by decide),
    (C2_return_series [100, 110]).2.2 1 (le_refl 1) (by decide)⟩

/-- C3: For every clean price series and every index i, the cumulative return
series `(1 + returns).cumprod() - 1` (iterative compounding) satisfies
cum[i] = (∏ j ≤ i, 1 + return[j]) - 1; and if some return[j] with j ≤ i equals
exactly -1 (that is, -100%), then cum[i] = -1 exactly (the zero factor
cascades, rather than being re-derived from the absolute price ratio). -/
theorem C3_cumulative_returns (s : List ℚ) (i : ℕ) (hi : i < s.length) :
    (cum_returns s)[i]? =
      some (((List.range (i + 1)).map (fun j => 1 + (returnsSeries s).getD j 0)).prod - 1) ∧
      ∀ j, j ≤ i → (returnsSeries s).getD j 0 = -1 →
        (cum_returns s)[i]? = some ((-1 : ℚ)) := by
  have hlen : i < ((returnsSeries s).map (fun r => 1 + r)).length := by
    simpa [length_returnsSeries] using hi
  have htake : i + 1 ≤ (returnsSeries s).length := by
    rw [length_returnsSeries]
    omega
  have hmain : (cum_returns s)[i]? =
      some (((List.range (i + 1)).map (fun j => 1 + (returnsSeries s).getD j 0)).prod - 1) := by
    show ((cumprodGo 1 ((returnsSeries s).map (fun r => 1 + r))).map (fun x => x - 1))[i]? = _
    rw [List.getElem?_map, cumprodGo_getElem 1 _ i hlen, ← List.map_take,
      take_eq_map_range_getD (returnsSeries s) (i + 1) htake, List.map_map]
    simp [Function.comp_def]
  refine ⟨hmain, ?_⟩
  intro j hj hre
  rw [hmain]
  have hmem : (0 : ℚ) ∈ (List.range (i + 1)).map
      (fun j => 1 + (returnsSeries s).getD j 0) := by
    refine List.mem_map.mpr ⟨j, List.mem_range.mpr (by omega), ?_⟩
    rw [hre]
    ring
  rw [List.prod_eq_zero hmem]
  norm_num

/-- Witness for C3 at the concrete series [4, 2, 0], whose last return is
exactly -100%. -/
theorem C3_cumulative_returns_witness :
    2 < ([4, 2, 0] : List ℚ).length ∧ (2 : ℕ) ≤ 2 ∧
      (returnsSeries [4, 2, 0]).getD 2 0 = -1 ∧
      (cum_returns [4, 2, 0])[2]? =
        some (((List.range (2 + 1)).map
          (fun j => 1 + (returnsSeries [4, 2, 0]).getD j 0)).prod - 1) ∧
      (cum_returns [4, 2, 0])[2]? = some ((-1 : ℚ)) :=
  ⟨by decide, le_refl 2,
    by norm_num [returnsSeries, pct_change, pctChangeGo, fillna0, List.getD],
    (C3_cumulative_returns [4, 2, 0] 2 (by decide)).1,
    (C3_cumulative_returns [4, 2, 0] 2 (by decide)).2 2 (le_refl 2)
      (by norm_num [returnsSeries, pct_change, pctChangeGo, fillna0, List.getD])⟩

/-- C10: For every raw observation sequence, the Series Cleaner
(`ffill().dropna()`) replaces each null price with the most recent preceding
non-null price and drops leading entries with no prior value to fill from; in
particular Cleaner([10, null, null, 12]) = [10, 10, 10, 12]. -/
theorem C10_cleaner_forward_fill :
    (∀ xs : List (Option ℚ), cleanSeries xs = cleanerSpec xs) ∧
      cleanSeries [some 10, none, none, some 12] = [10, 10, 10, 12] :=
  ⟨cleanSeries_eq_cleanerSpec, by decide⟩

/-- C4: For every return series, the rolling volatility with window W = 20 is
aligned with the input, its first W-1 entries are NaN (`none`, distinguishable
from zero), and for every i ≥ W-1 its value v is the unbiased (N-1 divisor)
sample standard deviation of return[i-W+1..i] times 100, characterised by
v ≥ 0 and v² = sampleVar(window)·100²; every defined value is ≥ 0. -/
theorem C4_rolling_volatility (s : List ℚ) :
    (rolling_vol s).length = s.length ∧
      (∀ i, i < s.length → i + 1 < 20 → (rolling_vol s)[i]? = some none) ∧
      ∀ i, 19 ≤ i → i < s.length →
        ∃ v : ℝ, (rolling_vol s)[i]? = some (some v) ∧ 0 ≤ v ∧
          v ^ 2 = ((sampleVar ((List.range 20).map
            (fun j => (returnsSeries s).getD (i - 19 + j) 0)) : ℚ) : ℝ) * 10000 := by
  refine ⟨?_, ?_, ?_⟩
  · simp [rolling_vol, rollingStd, length_returnsSeries]
  · intro i hi hw
    have hi' : i < (returnsSeries s).length := by simpa [length_returnsSeries] using hi
    rw [rolling_vol, List.getElem?_map, rollingStd, List.getElem?_map,
      List.getElem?_range hi']
    simp [hw]
  · intro i h19 hi
    have hi' : i < (returnsSeries s).length := by simpa [length_returnsSeries] using hi
    have hslice : ((returnsSeries s).take (i + 1)).drop (i - 19)
        = (List.range 20).map (fun j => (returnsSeries s).getD (i - 19 + j) 0) := by
      have h1 : i - 19 + 20 = i + 1 := by omega
      rw [← h1, drop_take_eq_map_range _ _ _ (by rw [h1, length_returnsSeries]; omega)]
    have hw : ¬ (i + 1 < 20) := by omega
    have hvar : (0 : ℝ) ≤ ((sampleVar ((List.range 20).map
        (fun j => (returnsSeries s).getD (i - 19 + j) 0)) : ℚ) : ℝ) := by
      exact_mod_cast sampleVar_nonneg _
    refine ⟨Real.sqrt ((sampleVar ((List.range 20).map
      (fun j => (returnsSeries s).getD (i - 19 + j) 0)) : ℚ) : ℝ) * 100, ?_, ?_, ?_⟩
    · rw [rolling_vol, List.getElem?_map, rollingStd, List.getElem?_map,
        List.getElem?_range hi']
      simp only [Option.map_some']
      rw [if_neg hw, show i + 1 - 20 = i - 19 from by omega, hslice]
      simp
    · exact mul_nonneg (Real.sqrt_nonneg _) (by norm_num)
    · rw [mul_pow, Real.sq_sqrt hvar]
      norm_num

/-- Witness for C4 at a constant 20-observation series: the entry at index 0 is
NaN and the entry at index 19 is a defined non-negative standard deviation. -/
theorem C4_rolling_volatility_witness :
    (0 : ℕ) < (List.replicate 20 (1 : ℚ)).length ∧ (0 : ℕ) + 1 < 20 ∧
      (19 : ℕ) ≤ 19 ∧ 19 < (List.replicate 20 (1 : ℚ)).length ∧
      (rolling_vol (List.replicate 20 (1 : ℚ)))[0]? = some none ∧
      ∃ v : ℝ, (rolling_vol (List.replicate 20 (1 : ℚ)))[19]? = some (some v) ∧ 0 ≤ v ∧
        v ^ 2 = ((sampleVar ((List.range 20).map
          (fun j => (returnsSeries (List.replicate 20 (1 : ℚ))).getD (19 - 19 + j) 0)) :
            ℚ) : ℝ) * 10000 :=
  ⟨by decide, by decide, le_refl 19, by decide,
    (C4_rolling_volatility (List.replicate 20 (1 : ℚ))).2.1 0 (by decide) (by decide),
    (C4_rolling_volatility (List.replicate 20 (1 : ℚ))).2.2 19 (le_refl 19) (by decide)⟩

/-- C5: For every clean series with at least 2 observations, the summary row
has startPrice = price[0], endPrice = price[last],
totalReturnPct = (end/start - 1)·100, and its average daily return and
volatility are computed over the per-period returns for i ≥ 1 only (the list
`pct_change().dropna()`, of length N-1, excluding any synthetic index-0 zero):
the average is their mean times 100 and the volatility is their unbiased
sample standard deviation times 100 (characterised through its square). -/
theorem C5_summary_aggregator (s : List ℚ) (h2 : 2 ≤ s.length) :
    ∃ r, summaryRow s = some r ∧
      r.startPrice = s.getD 0 0 ∧
      r.endPrice = s.getLastD 0 ∧
      r.totalReturnPct = (s.getLastD 0 / s.getD 0 0 - 1) * 100 ∧
      (returnsDropna s).length = s.length - 1 ∧
      (∀ j, j + 1 < s.length →
        (returnsDropna s)[j]? = some (s.getD (j + 1) 0 / s.getD j 0 - 1)) ∧
      r.avgDailyReturnPct = some (mean (returnsDropna s) * 100) ∧
      (∀ v, r.volatilityPct = some v →
        0 ≤ v ∧ v ^ 2 = ((sampleVar (returnsDropna s) : ℚ) : ℝ) * 10000) ∧
      (3 ≤ s.length → ∃ v, r.volatilityPct = some v) := by
  cases s with
  | nil => simp at h2
  | cons p0 rest =>
    have hrest : rest ≠ [] := by
      cases rest with
      | nil => simp at h2
      | cons b tl => simp
    have hlen : (returnsDropna (p0 :: rest)).length = rest.length := by
      rw [returnsDropna_eq]
      simp
    refine ⟨_, rfl, by simp, ?_, ?_, ?_, ?_, ?_, ?_, ?_⟩
    · show (p0 :: rest).getLastD p0 = (p0 :: rest).getLastD 0
      rw [List.getLastD_eq_getLast?, List.getLastD_eq_getLast?,
        List.getLast?_eq_getLast (p0 :: rest) (by simp)]
      rfl
    · show ((p0 :: rest).getLastD p0 / p0 - 1) * 100
        = ((p0 :: rest).getLastD 0 / (p0 :: rest).getD 0 0 - 1) * 100
      rw [List.getLastD_eq_getLast?, List.getLastD_eq_getLast?,
        List.getLast?_eq_getLast (p0 :: rest) (by simp)]
      rfl
    · simpa using hlen
    · intro j hj
      have hj' : j < rest.length := by simpa using hj
      rw [returnsDropna_eq, List.getElem?_map, List.getElem?_range hj']
      rfl
    · show (meanOpt (returnsDropna (p0 :: rest))).map (fun m => m * 100) = _
      have hne : (returnsDropna (p0 :: rest)).length ≠ 0 := by
        rw [hlen]
        simpa using hrest
      simp [meanOpt, hne]
    · intro v hv
      by_cases hlt : (returnsDropna (p0 :: rest)).length < 2
      · rw [show stdOpt (returnsDropna (p0 :: rest)) = none from by simp [stdOpt, hlt]] at hv
        simp at hv
      · have hsome : stdOpt (returnsDropna (p0 :: rest))
            = some (Real.sqrt ((sampleVar (returnsDropna (p0 :: rest)) : ℚ) : ℝ)) := by
          simp [stdOpt, hlt]
        rw [hsome] at hv
        have hvar : (0 : ℝ) ≤ ((sampleVar (returnsDropna (p0 :: rest)) : ℚ) : ℝ) := by
          exact_mod_cast sampleVar_nonneg _
        have hv' : v = Real.sqrt ((sampleVar (returnsDropna (p0 :: rest)) : ℚ) : ℝ) * 100 := by
          simpa using hv.symm
        subst hv'
        refine ⟨mul_nonneg (Real.sqrt_nonneg _) (by norm_num), ?_⟩
        rw [mul_pow, Real.sq_sqrt hvar]
        norm_num
    · intro h3
      have hge : ¬ ((returnsDropna (p0 :: rest)).length < 2) := by
        rw [hlen]
        simp only [List.length_cons] at h3
        omega
      exact ⟨Real.sqrt ((sampleVar (returnsDropna (p0 :: rest)) : ℚ) : ℝ) * 100,
        by simp [stdOpt, hge]⟩

/-- Witness for C5 at the concrete series [100, 110, 99] from the spec:
startPrice = 100, endPrice = 99, totalReturnPct = -1 exactly and
avgDailyReturnPct = 0 exactly (so -1.00 and 0.000 at display precision). -/
theorem C5_summary_aggregator_witness :
    2 ≤ ([100, 110, 99] : List ℚ).length ∧
      ∃ r, summaryRow [100, 110, 99] = some r ∧
        r.startPrice = 100 ∧ r.endPrice = 99 ∧ r.totalReturnPct = -1 ∧
        r.avgDailyReturnPct = some 0 := by
  refine ⟨by decide, ?_⟩
  obtain ⟨r, hr, h1, h2, h3, _, _, h4, _, _⟩ := C5_summary_aggregator [100, 110, 99] (by decide)
  refine ⟨r, hr, ?_, ?_, ?_, ?_⟩
  · rw [h1]
    norm_num [List.getD]
  · rw [h2]
    norm_num [List.getLastD_cons]
  · rw [h3]
    norm_num [List.getD, List.getLastD_cons]
  · rw [h4]
    norm_num [returnsDropna_eq, List.range_succ, mean, List.getD]

/-! ### Helper lemmas: the per-index pipeline -/

theorem summaryTable_names (inputs : List (String × RawFetch)) :
    (summaryTable inputs).map Prod.fst = chartNames inputs := by
  simp [summaryTable, chartNames, List.map_map]

theorem not_mem_chartNames (inputs : List (String × RawFetch)) (name : String)
    (hall : ∀ raw, (name, raw) ∈ inputs → (fetch_data name raw).2 = []) :
    name ∉ chartNames inputs := by
  intro hmem
  obtain ⟨q, hq, hqname⟩ := List.mem_map.mp hmem
  obtain ⟨p, hp, hfp⟩ := List.mem_filterMap.mp hq
  obtain ⟨pn, praw⟩ := p
  by_cases hemp : (fetch_data pn praw).2 = []
  · simp [hemp] at hfp
  · simp only [if_neg hemp] at hfp
    obtain rfl := Option.some.inj hfp
    have hpn : pn = name := hqname
    subst hpn
    exact hemp (hall praw hp)

theorem warning_of_emptyDF (inputs : List (String × RawFetch)) (t : String)
    (h : (t, RawFetch.emptyDF) ∈ inputs) :
    ("No data returned for " ++ t ++ ".") ∈ warningsOf inputs := by
  apply List.mem_flatten.mpr
  refine ⟨(fetch_data t RawFetch.emptyDF).1,
    List.mem_map.mpr ⟨(t, RawFetch.emptyDF), h, rfl⟩, ?_⟩
  simp [fetch_data]

/-- C6 counterexample: with one index fetching five valid rows and a second
index whose fetch succeeds but whose prices are all null (so the series becomes
empty only after `ffill().dropna()`), the second index is excluded from the
charts yet the program emits no warning at all — contradicting the claim that
every empty-after-cleaning input gets a user-visible warning naming its
symbol. -/
theorem C6_counterexample :
    (fetch_data "NDX" (RawFetch.rows [none, none])).2 = [] ∧
      chartNames [("SPX", RawFetch.rows [some 1, some 2, some 3, some 4, some 5]),
        ("NDX", RawFetch.rows [none, none])] = ["SPX"] ∧
      warningsOf [("SPX", RawFetch.rows [some 1, some 2, some 3, some 4, some 5]),
        ("NDX", RawFetch.rows [none, none])] = [] := by
  decide

/-- C6 (amended): an index whose fetched series cleans to empty is excluded
from every chart and from the summary table; a user-visible warning naming the
symbol is emitted when the fetch result itself is empty (but not when the
series becomes empty only through forward-fill/dropna); and in the two-index
scenario with one empty fetch and one 5-row fetch, the summary table holds
exactly the one valid row and the empty index gets its warning. -/
theorem C6_amended_behavior (inputs : List (String × RawFetch)) (name : String)
    (hall : ∀ raw, (name, raw) ∈ inputs → (fetch_data name raw).2 = []) :
    name ∉ chartNames inputs ∧
      (∀ row ∈ summaryTable inputs, row.1 ≠ name) ∧
      (∀ t, (t, RawFetch.emptyDF) ∈ inputs →
        ("No data returned for " ++ t ++ ".") ∈ warningsOf inputs) ∧
      (summaryTable [("SPX", RawFetch.rows [some 1, some 2, some 3, some 4, some 5]),
        ("NDX", RawFetch.emptyDF)]).map Prod.fst = ["SPX"] ∧
      ("No data returned for " ++ "NDX" ++ ".") ∈ warningsOf
        [("SPX", RawFetch.rows [some 1, some 2, some 3, some 4, some 5]),
          ("NDX", RawFetch.emptyDF)] := by
  refine ⟨not_mem_chartNames inputs name hall, ?_,
    fun t ht => warning_of_emptyDF inputs t ht, ?_, ?_⟩
  · intro row hrow hname
    apply not_mem_chartNames inputs name hall
    rw [← summaryTable_names]
    exact hname ▸ List.mem_map.mpr ⟨row, hrow, rfl⟩
  · rw [summaryTable_names]
    decide
  · exact warning_of_emptyDF _ "NDX" (by decide)

/-- Witness for C6 (amended) at one index whose two fetched prices are both
null. -/
theorem C6_amended_witness :
    (∀ raw, ("NDX", raw) ∈ ([("NDX", RawFetch.rows [none, none])] :
        List (String × RawFetch)) → (fetch_data "NDX" raw).2 = []) ∧
      "NDX" ∉ chartNames [("NDX", RawFetch.rows [none, none])] ∧
      (∀ row ∈ summaryTable [("NDX", RawFetch.rows [none, none])], row.1 ≠ "NDX") ∧
      (∀ t, (t, RawFetch.emptyDF) ∈ ([("NDX", RawFetch.rows [none, none])] :
          List (String × RawFetch)) →
        ("No data returned for " ++ t ++ ".") ∈
          warningsOf [("NDX", RawFetch.rows [none, none])]) ∧
      (summaryTable [("SPX", RawFetch.rows [some 1, some 2, some 3, some 4, some 5]),
        ("NDX", RawFetch.emptyDF)]).map Prod.fst = ["SPX"] ∧
      ("No data returned for " ++ "NDX" ++ ".") ∈ warningsOf
        [("SPX", RawFetch.rows [some 1, some 2, some 3, some 4, some 5]),
          ("NDX", RawFetch.emptyDF)] := by
  have hall : ∀ raw, ("NDX", raw) ∈ ([("NDX", RawFetch.rows [none, none])] :
      List (String × RawFetch)) → (fetch_data "NDX" raw).2 = [] := by
    intro raw hr
    have hr' : raw = RawFetch.rows [none, none] := by
      simpa using hr
    subst hr'
    decide
  have h := C6_amended_behavior [("NDX", RawFetch.rows [none, none])] "NDX" hall
  exact ⟨hall, h.1, h.2.1, h.2.2.1, h.2.2.2.1, h.2.2.2.2⟩

/-- C7: the raw-data export path re-fetches every selected index and calls
`normalize_series` without any empty check; an empty fetch for one index makes
`iloc[0]` raise, aborting the whole export (`none`), so the other index is not
displayed on that path — even though the main chart path handles the same
inputs fine. This contradicts the claim that no single index's failure
prevents display of the remaining indices on every output path. -/
theorem C7_raw_export_crash :
    exportRaw [("SPX", RawFetch.rows [some 1, some 2]), ("NDX", RawFetch.emptyDF)] = none ∧
      chartNames [("SPX", RawFetch.rows [some 1, some 2]), ("NDX", RawFetch.emptyDF)]
        = ["SPX"] := by
  decide

/-- C8 counterexample: a single-observation series is not omitted from the
summary table and produces degenerate output — the row appears with NaN
(undefined) average daily return and volatility, and no warning is emitted. -/
theorem C8_counterexample :
    ∃ r, summaryTable [("IDX", RawFetch.rows [some 100])] = [("IDX", some r)] ∧
      r.avgDailyReturnPct = none ∧ r.volatilityPct = none ∧
      warningsOf [("IDX", RawFetch.rows [some 100])] = [] := by
  have hclean : cleanSeries [some (100 : ℚ)] = [100] := by decide
  have hrow : summaryRow [100] = some ⟨100, 100, 0, none, none⟩ := by
    norm_num [summaryRow, returnsDropna, pct_change, pctChangeGo, meanOpt, stdOpt,
      List.getLastD]
  refine ⟨⟨100, 100, 0, none, none⟩, ?_, rfl, rfl, by decide⟩
  simp [summaryTable, priceData, fetch_data, hclean, hrow]

/-- C8 (amended): for a non-empty cleaned series with fewer than 2
observations, the code signals nothing: the summary row is still produced,
with startPrice = endPrice = the single price and with NaN (undefined,
modelled `none`) average daily return and volatility. -/
theorem C8_amended_degenerate_row (s : List ℚ) (hne : s ≠ []) (hlt : s.length < 2) :
    ∃ r, summaryRow s = some r ∧ r.avgDailyReturnPct = none ∧ r.volatilityPct = none ∧
      r.startPrice = s.getD 0 0 ∧ r.endPrice = s.getD 0 0 := by
  obtain ⟨x, rfl⟩ : ∃ x, s = [x] := by
    cases s with
    | nil => exact absurd rfl hne
    | cons a tl =>
      cases tl with
      | nil => exact ⟨a, rfl⟩
      | cons b tl2 =>
        exfalso
        simp only [List.length_cons] at hlt
        omega
  refine ⟨⟨x, x, (x / x - 1) * 100, none, none⟩, ?_, rfl, rfl, by simp, by simp⟩
  simp [summaryRow, returnsDropna, pct_change, pctChangeGo, meanOpt, stdOpt, List.getLastD]

/-- Witness for C8 (amended) at the one-observation series [100]. -/
theorem C8_amended_witness :
    ([100] : List ℚ) ≠ [] ∧ ([100] : List ℚ).length < 2 ∧
      ∃ r, summaryRow [100] = some r ∧ r.avgDailyReturnPct = none ∧
        r.volatilityPct = none ∧ r.startPrice = ([100] : List ℚ).getD 0 0 ∧
        r.endPrice = ([100] : List ℚ).getD 0 0 :=
  ⟨by decide, by decide, C8_amended_degenerate_row [100] (by decide) (by decide)⟩

/-- C9 counterexample: with a fetched series whose first cleaned price is 0,
the normalizer happily returns a value (no DegenerateBasePrice error is
raised), the index stays on every chart and in the summary, and no warning is
emitted — contradicting the claim that the division is refused and the index
excluded. -/
theorem C9_counterexample :
    (normalize_series [0, 5]).isSome = true ∧
      chartNames [("IDX0", RawFetch.rows [some 0, some 5])] = ["IDX0"] ∧
      warningsOf [("IDX0", RawFetch.rows [some 0, some 5])] = [] := by
  decide

/-- C9 (amended): `normalize_series` performs no zero check on the base price:
for every non-empty series — including one whose first price is 0 — it simply
returns the mapped series p ↦ p/price[0]·100, and every index whose cleaned
series is non-empty is kept on the charts and in the summary regardless of its
base price. -/
theorem C9_amended_no_zero_check (s : List ℚ) (p0 : ℚ) (rest : List ℚ)
    (hs : s = p0 :: rest) :
    normalize_series s = some (s.map (fun p => p / p0 * 100)) ∧
      ∀ (inputs : List (String × RawFetch)) (name : String) (raw : RawFetch),
        (name, raw) ∈ inputs → (fetch_data name raw).2 ≠ [] →
          name ∈ chartNames inputs := by
  subst hs
  refine ⟨rfl, ?_⟩
  intro inputs name raw hmem hne
  refine List.mem_map.mpr ⟨(name, (fetch_data name raw).2), ?_, rfl⟩
  refine List.mem_filterMap.mpr ⟨(name, raw), hmem, ?_⟩
  simp [hne]

/-- Witness for C9 (amended) at the series [0, 5] whose base price is zero. -/
theorem C9_amended_witness :
    ([0, 5] : List ℚ) = 0 :: [5] ∧
      normalize_series [0, 5] = some (([0, 5] : List ℚ).map (fun p => p / 0 * 100)) ∧
      ("IDX0", RawFetch.rows [some 0, some 5]) ∈
        [("IDX0", RawFetch.rows [some 0, some 5])] ∧
      (fetch_data "IDX0" (RawFetch.rows [some 0, some 5])).2 ≠ [] ∧
      "IDX0" ∈ chartNames [("IDX0", RawFetch.rows [some 0, some 5])] :=
  ⟨rfl, (C9_amended_no_zero_check [0, 5] 0 [5] rfl).1, by decide, by decide,
    (C9_amended_no_zero_check [0, 5] 0 [5] rfl).2 _ "IDX0" (RawFetch.rows [some 0, some 5])
      (by decide) (by decide)⟩

end MarketApp
